import Mathlib

/-!
Shallow embedding of the ribbon-mesh generator of `src/modules/ribbon.js`
(class `Ribbon`), together with theorems settling the spec claims about it.

Vector arithmetic is modelled exactly: `Vec3` mirrors `THREE.Vector3` with
its source semantics, in particular `normalize` divides by `length() || 1`,
so the zero vector normalizes to the zero vector.  Real numbers stand for
the JS doubles (exact arithmetic).  The scene graph and the tile manager
are external collaborators; a `RibbonState` carries the fields of the
`Ribbon` class that the geometry computation reads or writes.
-/

noncomputable section

/-- A 3-component vector, mirroring `THREE.Vector3`. -/
structure Vec3 where
  x : ℝ
  y : ℝ
  z : ℝ

namespace Vec3

/-- `new THREE.Vector3()` — the zero vector. -/
def zero : Vec3 := ⟨0, 0, 0⟩

/-- `Vector3.add` (componentwise sum). -/
def add (a b : Vec3) : Vec3 := ⟨a.x + b.x, a.y + b.y, a.z + b.z⟩

/-- `Vector3.sub` (componentwise difference). -/
def sub (a b : Vec3) : Vec3 := ⟨a.x - b.x, a.y - b.y, a.z - b.z⟩

/-- `Vector3.negate`. -/
def neg (a : Vec3) : Vec3 := ⟨-a.x, -a.y, -a.z⟩

/-- `Vector3.multiplyScalar`. -/
def smul (c : ℝ) (a : Vec3) : Vec3 := ⟨c * a.x, c * a.y, c * a.z⟩

/-- `Vector3.dot`: `x*x + y*y + z*z` pattern on two vectors. -/
def dot (a b : Vec3) : ℝ := a.x * b.x + a.y * b.y + a.z * b.z

/-- `Vector3.cross` (right-handed cross product, as in the source). -/
def cross (a b : Vec3) : Vec3 :=
  ⟨a.y * b.z - a.z * b.y, a.z * b.x - a.x * b.z, a.x * b.y - a.y * b.x⟩

/-- The squared length `x*x + y*y + z*z` (`Vector3.lengthSq`). -/
def lengthSq (v : Vec3) : ℝ := v.x * v.x + v.y * v.y + v.z * v.z

/-- `Vector3.length`: `Math.sqrt(x*x + y*y + z*z)`. -/
def length (v : Vec3) : ℝ := Real.sqrt (lengthSq v)

/-- `Vector3.normalize`: `divideScalar(this.length() || 1)` — the zero
vector (length `0`, falsy) is divided by `1` and stays the zero vector. -/
def normalize (v : Vec3) : Vec3 :=
  let d := if length v = 0 then 1 else length v
  ⟨v.x / d, v.y / d, v.z / d⟩

/-- `Vector3.distanceTo`: length of the difference. -/
def distanceTo (a b : Vec3) : ℝ := length (sub a b)

/-- `Vector3.lerp(v, alpha)`: `this + (v - this) * alpha`, componentwise. -/
def lerp (a b : Vec3) (alpha : ℝ) : Vec3 :=
  ⟨a.x + (b.x - a.x) * alpha, a.y + (b.y - a.y) * alpha, a.z + (b.z - a.z) * alpha⟩

/-- `Vector3.lerpVectors(v1, v2, alpha)`: `v1 + (v2 - v1) * alpha`. -/
def lerpVectors (a b : Vec3) (alpha : ℝ) : Vec3 := lerp a b alpha

/-- `Vector3.addScaledVector(v, s)`: `this + v * s`. -/
def addScaledVector (a v : Vec3) (s : ℝ) : Vec3 :=
  ⟨a.x + v.x * s, a.y + v.y * s, a.z + v.z * s⟩

/-- `Vector3.applyQuaternion` for a quaternion `(qx, qy, qz, qw)`:
`t = 2 * cross(q.xyz, v); v' = v + qw * t + cross(q.xyz, t)`. -/
def applyQuaternion (v : Vec3) (qx qy qz qw : ℝ) : Vec3 :=
  let tx := 2 * (qy * v.z - qz * v.y)
  let ty := 2 * (qz * v.x - qx * v.z)
  let tz := 2 * (qx * v.y - qy * v.x)
  ⟨v.x + qw * tx + (qy * tz - qz * ty),
   v.y + qw * ty + (qz * tx - qx * tz),
   v.z + qw * tz + (qx * ty - qy * tx)⟩

/-- `Vector3.applyAxisAngle(axis, angle)`: apply the quaternion
`setFromAxisAngle(axis, angle)` (axis assumed normalized). -/
def applyAxisAngle (v axis : Vec3) (angle : ℝ) : Vec3 :=
  let h := angle / 2
  let s := Real.sin h
  applyQuaternion v (axis.x * s) (axis.y * s) (axis.z * s) (Real.cos h)

end Vec3

/-- The constant `up = new THREE.Vector3(0, 1, 0)` of `buildSegmentedRibbon`. -/
def upVec : Vec3 := ⟨0, 1, 0⟩

/-- The constant `right = new THREE.Vector3(1, 0, 0)` of `buildSegmentedRibbon`. -/
def rightVec : Vec3 := ⟨1, 0, 0⟩

/-- `curve.getPoint(t)` of `createCurveFromPoints`: fractional index
`i = t * (points.length - 1)`, `a = Math.floor(i)`,
`b = Math.min(Math.ceil(i), points.length - 1)`, then
`lerpVectors(points[a], points[b], i - a)`.  Out-of-range indices (never
reached for `t` in `[0, 1]`) default to the zero vector. -/
def getPoint (points : List Vec3) (t : ℝ) : Vec3 :=
  let i : ℝ := t * ((points.length : ℝ) - 1)
  let a : ℤ := ⌊i⌋
  let b : ℤ := min ⌈i⌉ ((points.length : ℤ) - 1)
  let p1 := points.getD a.toNat Vec3.zero
  let p2 := points.getD b.toNat Vec3.zero
  Vec3.lerpVectors p1 p2 (i - (a : ℝ))

/-- `curve.getTangent(t)` of `createCurveFromPoints`: finite difference with
`delta = 0.001`, evaluation points clamped into `[0, 1]`, normalized. -/
def getTangent (points : List Vec3) (t : ℝ) : Vec3 :=
  let delta : ℝ := 0.001
  let p1 := getPoint points (max (t - delta) 0)
  let p2 := getPoint points (min (t + delta) 1)
  Vec3.normalize (Vec3.sub p2 p1)

/-- `calculatePathLength`: sum of `points[i].distanceTo(points[i-1])` over
consecutive pairs of the input point sequence. -/
def calculatePathLength : List Vec3 → ℝ
  | [] => 0
  | [_] => 0
  | a :: b :: rest => Vec3.distanceTo b a + calculatePathLength (b :: rest)

/-- `pointsPerSegment = 50` of `buildSegmentedRibbon`. -/
def pointsPerSegment : ℕ := 50

/-- The segment count of `buildSegmentedRibbon`:
`Math.max(1, Math.ceil(totalLength / segmentLength))` with
`segmentLength = width`. -/
def segmentCountOf (points : List Vec3) (width : ℝ) : ℕ :=
  max 1 (⌈calculatePathLength points / width⌉).toNat

/-- `totalPoints = segmentCount * pointsPerSegment + 1` of
`buildSegmentedRibbon` — the number of normal-field samples. -/
def totalSamplePoints (points : List Vec3) (width : ℝ) : ℕ :=
  segmentCountOf points width * pointsPerSegment + 1

/-- The initial reference normal of `buildSegmentedRibbon`:
`up × initialTangent` normalized; if the *normalized* vector's length is
below `0.1` (which, in exact arithmetic, happens exactly when the cross
product is zero), fall back to `right × initialTangent` normalized. -/
def referenceNormal (points : List Vec3) : Vec3 :=
  let initialTangent := Vec3.normalize (getTangent points 0)
  let rn := Vec3.normalize (Vec3.cross upVec initialTangent)
  if Vec3.length rn < 0.1 then Vec3.normalize (Vec3.cross rightVec initialTangent) else rn

/-- The body of the normal-field loop of `buildSegmentedRibbon` for one
index `i`, given the previous normal: Frenet-style double cross product,
anti-flip negation, then a 10% lerp toward the candidate, renormalized. -/
def normalStep (points : List Vec3) (totalPoints : ℕ) (prev : Vec3) (i : ℕ) : Vec3 :=
  let t : ℝ := (i : ℝ) / ((totalPoints : ℝ) - 1)
  let tangent := Vec3.normalize (getTangent points t)
  if i = 0 then prev
  else
    let binormal := Vec3.normalize (Vec3.cross tangent prev)
    let n0 := Vec3.normalize (Vec3.cross binormal tangent)
    let n1 := if Vec3.dot n0 prev < 0 then Vec3.neg n0 else n0
    Vec3.normalize (Vec3.lerp prev n1 0.1)

/-- The normal cache entry at index `i`: the loop of `buildSegmentedRibbon`
carries `prevNormal`, starting from the reference normal. -/
def normalAt (points : List Vec3) (totalPoints : ℕ) : ℕ → Vec3
  | 0 => referenceNormal points
  | i + 1 => normalStep points totalPoints (normalAt points totalPoints i) (i + 1)

/-- The full `normalCache` list of a build: one entry per sample index
`0 .. totalSamplePoints - 1`. -/
def normalFieldList (points : List Vec3) (width : ℝ) : List Vec3 :=
  (List.range (totalSamplePoints points width)).map
    (normalAt points (totalSamplePoints points width))

/-- `maxPoints = Math.floor(pointsPerSegment * cutoffThreshold)` with
`cutoffThreshold = truncateSegments ? 0.99 : 1.0`. -/
def maxPointsOf (truncateSegments : Bool) (pps : ℕ) : ℕ :=
  (⌊(pps : ℝ) * (if truncateSegments then (0.99 : ℝ) else 1)⌋).toNat

/-- One sample's six position floats in `createRibbonSegmentWithCache`:
the cached normal is rotated around the tangent by the undulation phase,
then `left = point - normal * (width/2)` and `right = point + normal * (width/2)`
are pushed as `[left.x, left.y, left.z, right.x, right.y, right.z]`. -/
def segPositionBlock (waveAmplitude waveFrequency waveSpeed : ℝ) (points : List Vec3)
    (startT endT width time : ℝ) (normalCache : List Vec3)
    (startPointIdx pps : ℕ) (i : ℕ) : List ℝ :=
  let localT : ℝ := (i : ℝ) / (pps : ℝ)
  let globalT := startT + (endT - startT) * localT
  let point := getPoint points globalT
  let tangent := Vec3.normalize (getTangent points globalT)
  let cacheIdx := startPointIdx + i
  let normal0 := normalCache.getD cacheIdx Vec3.zero
  let phase := Real.sin (globalT * Real.pi * 2 * waveFrequency + time * waveSpeed) * waveAmplitude
  let normal := Vec3.applyAxisAngle normal0 tangent phase
  let leftV := Vec3.addScaledVector point normal (-width / 2)
  let rightV := Vec3.addScaledVector point normal (width / 2)
  [leftV.x, leftV.y, leftV.z, rightV.x, rightV.y, rightV.z]

/-- One sample's four UV floats: `(localT, 0)` for the left edge and
`(localT, 1)` for the right edge, `localT = i / pointsPerSegment`. -/
def segUVBlock (pps : ℕ) (i : ℕ) : List ℝ :=
  [(i : ℝ) / (pps : ℝ), 0, (i : ℝ) / (pps : ℝ), 1]

/-- One sample's six triangle indices, pushed while `i < maxPoints`:
`base = i * 2`, triangles `(base, base+1, base+2)` and
`(base+1, base+3, base+2)`. -/
def segIndexBlock (i : ℕ) : List ℕ :=
  [i * 2, i * 2 + 1, i * 2 + 2, i * 2 + 1, i * 2 + 3, i * 2 + 2]

/-- One renderable segment's geometry buffers (material and vertex-normal
computation are external to the claims and omitted). -/
structure SegmentGeometry where
  positions : List ℝ
  uvs : List ℝ
  indices : List ℕ

/-- `createRibbonSegmentWithCache`: walk `i` from `0` to `maxPoints`
pushing two vertices and two UV pairs per sample, plus two triangles per
sample while `i < maxPoints`. -/
def createRibbonSegmentWithCache (truncateSegments : Bool)
    (waveAmplitude waveFrequency waveSpeed : ℝ) (points : List Vec3)
    (startT endT width time : ℝ) (normalCache : List Vec3)
    (startPointIdx pps : ℕ) : SegmentGeometry :=
  let maxPoints := maxPointsOf truncateSegments pps
  { positions := ((List.range (maxPoints + 1)).map
      (segPositionBlock waveAmplitude waveFrequency waveSpeed points startT endT width time
        normalCache startPointIdx pps)).flatten
    uvs := ((List.range (maxPoints + 1)).map (segUVBlock pps)).flatten
    indices := ((List.range maxPoints).map segIndexBlock).flatten }

/-- The fields of the `Ribbon` class that the build reads or writes.  The
scene graph and tile manager are external; the scene's ribbon content
mirrors `meshSegments`. -/
structure RibbonState where
  meshSegments : List SegmentGeometry
  lastPoints : List Vec3
  lastWidth : ℝ
  truncateSegments : Bool
  waveAmplitude : ℝ
  waveFrequency : ℝ
  waveSpeed : ℝ

/-- `buildSegmentedRibbon(points, width, time)`: compute the segment count,
discard the old segments (`cleanupOldMesh`), precompute the normal cache and
emit one segment per index with `startT = segIdx / segmentCount`,
`endT = (segIdx + 1) / segmentCount`,
`startPointIdx = segIdx * pointsPerSegment`. -/
def buildSegmentedRibbon (st : RibbonState) (points : List Vec3) (width time : ℝ) :
    RibbonState × List SegmentGeometry :=
  let segmentCount := segmentCountOf points width
  let cache := normalFieldList points width
  let segs := (List.range segmentCount).map (fun (segIdx : ℕ) =>
    createRibbonSegmentWithCache st.truncateSegments st.waveAmplitude st.waveFrequency
      st.waveSpeed points ((segIdx : ℝ) / (segmentCount : ℝ))
      (((segIdx : ℝ) + 1) / (segmentCount : ℝ)) width time cache
      (segIdx * pointsPerSegment) pointsPerSegment)
  ({ st with meshSegments := segs }, segs)

/-- `buildFromPoints(points, width, time)`: fewer than two points is a
no-op returning nothing; otherwise store the points and width, then build. -/
def buildFromPoints (st : RibbonState) (points : List Vec3) (width time : ℝ) :
    RibbonState × Option (List SegmentGeometry) :=
  if points.length < 2 then (st, none)
  else
    let st1 := { st with lastPoints := points, lastWidth := width }
    let r := buildSegmentedRibbon st1 points width time
    (r.1, some r.2)

/-- The `Ribbon` constructor's initial state (empty segments and points,
`lastWidth = 1`, `truncateSegments = true`, wave parameters `0.2 / 2 / 2`). -/
def initialRibbonState : RibbonState :=
  { meshSegments := []
    lastPoints := []
    lastWidth := 1
    truncateSegments := true
    waveAmplitude := 0.2
    waveFrequency := 2
    waveSpeed := 2 }

/-- Demo input: two distinct points on the x-axis, giving the unit initial
tangent `(1, 0, 0)`. -/
def ptsDemo : List Vec3 := [⟨0, 0, 0⟩, ⟨1000, 0, 0⟩]

/-- Input whose initial tangent is nearly parallel to the up axis:
direction `(40, 399, 0)` has length `401`, so `up × tangent` has length
`40/401 < 0.1` while being nonzero. -/
def ptsNearVertical : List Vec3 := [⟨0, 0, 0⟩, ⟨40, 399, 0⟩]

end

attribute [ext] Vec3

namespace Vec3

theorem lengthSq_nonneg (v : Vec3) : 0 ≤ lengthSq v := by
  unfold lengthSq
  nlinarith [mul_self_nonneg v.x, mul_self_nonneg v.y, mul_self_nonneg v.z]

theorem length_nonneg (v : Vec3) : 0 ≤ length v := Real.sqrt_nonneg _

theorem lengthSq_zero : lengthSq zero = 0 := by simp [lengthSq, zero]

theorem length_zero : length zero = 0 := by
  rw [length, lengthSq_zero, Real.sqrt_zero]

theorem lengthSq_eq_zero_iff (v : Vec3) : lengthSq v = 0 ↔ v = zero := by
  constructor
  · intro h
    have h' : v.x * v.x + v.y * v.y + v.z * v.z = 0 := by simpa [lengthSq] using h
    have hx : v.x = 0 := mul_self_eq_zero.mp (le_antisymm
      (by nlinarith [mul_self_nonneg v.y, mul_self_nonneg v.z]) (mul_self_nonneg v.x))
    have hy : v.y = 0 := mul_self_eq_zero.mp (le_antisymm
      (by nlinarith [mul_self_nonneg v.x, mul_self_nonneg v.z]) (mul_self_nonneg v.y))
    have hz : v.z = 0 := mul_self_eq_zero.mp (le_antisymm
      (by nlinarith [mul_self_nonneg v.x, mul_self_nonneg v.y]) (mul_self_nonneg v.z))
    ext <;> simp [zero, hx, hy, hz]
  · rintro rfl
    exact lengthSq_zero

theorem length_eq_zero_iff (v : Vec3) : length v = 0 ↔ v = zero := by
  rw [length, Real.sqrt_eq_zero']
  constructor
  · intro h
    exact (lengthSq_eq_zero_iff v).mp (le_antisymm h (lengthSq_nonneg v))
  · intro h
    exact le_of_eq ((lengthSq_eq_zero_iff v).mpr h)

theorem normalize_of_length_zero {v : Vec3} (h : length v = 0) : normalize v = v := by
  simp [normalize, h]

theorem normalize_zero : normalize zero = zero :=
  normalize_of_length_zero length_zero

theorem normalize_eq_smul {v : Vec3} (h : length v ≠ 0) :
    normalize v = smul (length v)⁻¹ v := by
  ext <;> simp [normalize, smul, h] <;> ring

theorem length_smul (c : ℝ) (v : Vec3) : length (smul c v) = |c| * length v := by
  simp only [length, smul, lengthSq]
  rw [show c * v.x * (c * v.x) + c * v.y * (c * v.y) + c * v.z * (c * v.z)
      = c ^ 2 * (v.x * v.x + v.y * v.y + v.z * v.z) from by ring,
    Real.sqrt_mul (sq_nonneg c), Real.sqrt_sq_eq_abs]

theorem length_normalize {v : Vec3} (h : v ≠ zero) : length (normalize v) = 1 := by
  have hl : length v ≠ 0 := fun h0 => h ((length_eq_zero_iff v).mp h0)
  have hlpos : 0 < length v := lt_of_le_of_ne (length_nonneg v) (Ne.symm hl)
  rw [normalize_eq_smul hl, length_smul, abs_of_pos (inv_pos.mpr hlpos),
    inv_mul_cancel₀ hl]

theorem length_normalize_cases (v : Vec3) :
    length (normalize v) = 0 ∨ length (normalize v) = 1 := by
  by_cases h : v = zero
  · left
    rw [h, normalize_zero, length_zero]
  · right
    exact length_normalize h

theorem normalize_eq_zero_iff (v : Vec3) : normalize v = zero ↔ v = zero := by
  constructor
  · intro h
    by_contra hv
    have h1 := length_normalize hv
    rw [h, length_zero] at h1
    norm_num at h1
  · rintro rfl
    exact normalize_zero

theorem dot_comm (a b : Vec3) : dot a b = dot b a := by unfold dot; ring

theorem dot_smul_left (c : ℝ) (a b : Vec3) : dot (smul c a) b = c * dot a b := by
  unfold dot smul; ring

theorem dot_neg_left (a b : Vec3) : dot (neg a) b = -dot a b := by
  unfold dot neg; ring

theorem length_neg (v : Vec3) : length (neg v) = length v := by
  simp only [length, lengthSq, neg]
  ring_nf

theorem lengthSq_eq_sq_length (v : Vec3) : lengthSq v = (length v) ^ 2 :=
  (Real.sq_sqrt (lengthSq_nonneg v)).symm

theorem cross_smul_left (c : ℝ) (a b : Vec3) :
    cross (smul c a) b = smul c (cross a b) := by
  ext <;> simp [cross, smul] <;> ring

theorem dot_cross_right (a b : Vec3) : dot (cross a b) b = 0 := by
  unfold dot cross; ring

theorem smul_zero_vec (c : ℝ) : smul c zero = zero := by
  ext <;> simp [smul, zero]

theorem normalize_smul_of_pos {c : ℝ} (hc : 0 < c) (v : Vec3) :
    normalize (smul c v) = normalize v := by
  by_cases h : v = zero
  · rw [h, smul_zero_vec]
  · have hl : length v ≠ 0 := fun h0 => h ((length_eq_zero_iff v).mp h0)
    have hlpos : 0 < length v := lt_of_le_of_ne (length_nonneg v) (Ne.symm hl)
    have h2 : length (smul c v) = c * length v := by
      rw [length_smul, abs_of_pos hc]
    have hl2 : length (smul c v) ≠ 0 := by
      rw [h2]
      exact (mul_pos hc hlpos).ne'
    rw [normalize_eq_smul hl, normalize_eq_smul hl2, h2]
    ext <;> simp only [smul] <;> field_simp <;> ring

theorem normalize_cross_normalize_left (a b : Vec3) :
    normalize (cross (normalize a) b) = normalize (cross a b) := by
  by_cases h : a = zero
  · rw [h, normalize_zero]
  · have hl : length a ≠ 0 := fun h0 => h ((length_eq_zero_iff a).mp h0)
    have hlpos : 0 < length a := lt_of_le_of_ne (length_nonneg a) (Ne.symm hl)
    rw [normalize_eq_smul hl, cross_smul_left,
      normalize_smul_of_pos (inv_pos.mpr hlpos)]

theorem dot_normalize_left (a b : Vec3) (h : dot a b = 0) :
    dot (normalize a) b = 0 := by
  by_cases ha : length a = 0
  · rw [normalize_of_length_zero ha, h]
  · rw [normalize_eq_smul ha, dot_smul_left, h, mul_zero]

end Vec3

/-- Blending a unit previous normal 10% toward a candidate that is the zero
vector or a unit vector with nonnegative dot against the previous normal,
then renormalizing, yields a unit vector with nonnegative dot against the
previous normal. -/
theorem blend_step (prev n1 : Vec3) (hp : Vec3.length prev = 1)
    (_hn : Vec3.length n1 = 0 ∨ Vec3.length n1 = 1) (hd : 0 ≤ Vec3.dot n1 prev) :
    Vec3.length (Vec3.normalize (Vec3.lerp prev n1 0.1)) = 1 ∧
      0 ≤ Vec3.dot prev (Vec3.normalize (Vec3.lerp prev n1 0.1)) := by
  have hpsq : Vec3.lengthSq prev = 1 := by
    rw [Vec3.lengthSq_eq_sq_length, hp]
    norm_num
  have hnsq : 0 ≤ Vec3.lengthSq n1 := Vec3.lengthSq_nonneg n1
  set w := Vec3.lerp prev n1 0.1 with hw
  have hwsq : Vec3.lengthSq w
      = 0.81 * Vec3.lengthSq prev + 0.18 * Vec3.dot n1 prev + 0.01 * Vec3.lengthSq n1 := by
    rw [hw]
    unfold Vec3.lengthSq Vec3.lerp Vec3.dot
    ring
  have hwpos : 0 < Vec3.lengthSq w := by
    rw [hwsq, hpsq]
    nlinarith
  have hwne : w ≠ Vec3.zero := by
    intro h
    rw [h, Vec3.lengthSq_zero] at hwpos
    exact lt_irrefl 0 hwpos
  have hlw : 0 < Vec3.length w := Real.sqrt_pos.mpr hwpos
  refine ⟨Vec3.length_normalize hwne, ?_⟩
  rw [Vec3.normalize_eq_smul hlw.ne', Vec3.dot_comm, Vec3.dot_smul_left]
  have hdw : 0 ≤ Vec3.dot w prev := by
    have h1 : Vec3.dot w prev = 0.9 * Vec3.lengthSq prev + 0.1 * Vec3.dot n1 prev := by
      rw [hw]
      unfold Vec3.dot Vec3.lerp Vec3.lengthSq
      ring
    rw [h1, hpsq]
    nlinarith
  exact mul_nonneg (inv_nonneg.mpr hlw.le) hdw

/-- One iteration of the normal-field loop (at an index `i ≥ 1`) preserves
unit length and never produces a normal whose dot product with the previous
normal is negative. -/
theorem normalStep_props (pts : List Vec3) (tp : ℕ) (prev : Vec3) (i : ℕ)
    (hp : Vec3.length prev = 1) (hi : i ≠ 0) :
    Vec3.length (normalStep pts tp prev i) = 1 ∧
      0 ≤ Vec3.dot prev (normalStep pts tp prev i) := by
  unfold normalStep
  simp only [hi, if_false, reduceIte]
  set tangent := Vec3.normalize (getTangent pts ((i : ℝ) / ((tp : ℝ) - 1))) with htan
  set n0 := Vec3.normalize
    (Vec3.cross (Vec3.normalize (Vec3.cross tangent prev)) tangent) with hn0
  have hn0len : Vec3.length n0 = 0 ∨ Vec3.length n0 = 1 := Vec3.length_normalize_cases _
  by_cases hdot : Vec3.dot n0 prev < 0
  · simp only [hdot, if_true, reduceIte]
    refine blend_step prev _ hp ?_ ?_
    · rw [Vec3.length_neg]
      exact hn0len
    · rw [Vec3.dot_neg_left]
      linarith
  · simp only [hdot, if_false, reduceIte]
    exact blend_step prev n0 hp hn0len (not_lt.mp hdot)

/-- Case analysis of the reference-normal computation: whenever the initial
tangent is nonzero the reference normal is a unit vector; the fallback
branch is taken exactly when `up × tangent` is the zero vector. -/
theorem referenceNormal_cases (pts : List Vec3)
    (ht : Vec3.normalize (getTangent pts 0) ≠ Vec3.zero) :
    Vec3.length (referenceNormal pts) = 1 ∧
      (Vec3.cross upVec (Vec3.normalize (getTangent pts 0)) ≠ Vec3.zero →
        referenceNormal pts
          = Vec3.normalize (Vec3.cross upVec (Vec3.normalize (getTangent pts 0)))) ∧
      (Vec3.cross upVec (Vec3.normalize (getTangent pts 0)) = Vec3.zero →
        referenceNormal pts
          = Vec3.normalize (Vec3.cross rightVec (Vec3.normalize (getTangent pts 0)))) := by
  set t0 := Vec3.normalize (getTangent pts 0) with ht0
  have hrefgen : referenceNormal pts
      = if Vec3.length (Vec3.normalize (Vec3.cross upVec t0)) < 0.1
        then Vec3.normalize (Vec3.cross rightVec t0)
        else Vec3.normalize (Vec3.cross upVec t0) := rfl
  by_cases hc : Vec3.cross upVec t0 = Vec3.zero
  · have hcu : Vec3.cross upVec t0 = ⟨t0.z, 0, -t0.x⟩ := by
      simp [Vec3.cross, upVec]
    have hz : t0.z = 0 ∧ t0.x = 0 := by
      rw [hcu] at hc
      have h1 := congrArg Vec3.x hc
      have h3 := congrArg Vec3.z hc
      simp [Vec3.zero] at h1 h3
      exact ⟨h1, h3⟩
    have hy : t0.y ≠ 0 := by
      intro h0
      apply ht
      ext <;> simp [Vec3.zero, hz.1, hz.2, h0]
    have hcr : Vec3.cross rightVec t0 = ⟨0, -t0.z, t0.y⟩ := by
      simp [Vec3.cross, rightVec]
    have hcrne : Vec3.cross rightVec t0 ≠ Vec3.zero := by
      rw [hcr]
      intro h0
      exact hy (by simpa [Vec3.zero] using congrArg Vec3.z h0)
    have href : referenceNormal pts = Vec3.normalize (Vec3.cross rightVec t0) := by
      rw [hrefgen, hc, Vec3.normalize_zero, Vec3.length_zero]
      norm_num
    refine ⟨?_, fun h => absurd hc h, fun _ => href⟩
    rw [href]
    exact Vec3.length_normalize hcrne
  · have hlen : Vec3.length (Vec3.normalize (Vec3.cross upVec t0)) = 1 :=
      Vec3.length_normalize hc
    have href : referenceNormal pts = Vec3.normalize (Vec3.cross upVec t0) := by
      rw [hrefgen, hlen]
      norm_num
    exact ⟨by rw [href]; exact hlen, fun _ => href, fun h => absurd h hc⟩

/-- Every entry of the normal cache is a unit vector, provided the initial
tangent is nonzero. -/
theorem normalAt_unit (pts : List Vec3) (tp : ℕ)
    (ht : Vec3.normalize (getTangent pts 0) ≠ Vec3.zero) :
    ∀ i, Vec3.length (normalAt pts tp i) = 1 := by
  intro i
  induction i with
  | zero => exact (referenceNormal_cases pts ht).1
  | succ j ih =>
    exact (normalStep_props pts tp (normalAt pts tp j) (j + 1) ih (Nat.succ_ne_zero j)).1

/-- Adjacent normal-cache entries never have a negative dot product,
provided the initial tangent is nonzero. -/
theorem normalAt_adjacent_dot (pts : List Vec3) (tp : ℕ)
    (ht : Vec3.normalize (getTangent pts 0) ≠ Vec3.zero) :
    ∀ i, 0 ≤ Vec3.dot (normalAt pts tp i) (normalAt pts tp (i + 1)) := by
  intro i
  exact (normalStep_props pts tp (normalAt pts tp i) (i + 1)
    (normalAt_unit pts tp ht i) (Nat.succ_ne_zero i)).2

/-- Length of a concatenation of `n` equally sized blocks. -/
theorem blocks_length {α : Type} (f : ℕ → List α) (k : ℕ) (hf : ∀ i, (f i).length = k) :
    ∀ n, (((List.range n).map f).flatten).length = n * k := by
  intro n
  induction n with
  | zero => simp
  | succ m ih =>
    rw [List.range_succ, List.map_append, List.flatten_append, List.length_append, ih]
    simp [hf, Nat.succ_mul]

/-- Indexing into a concatenation of equally sized blocks reduces to
indexing into the selected block. -/
theorem blocks_getD {α : Type} (f : ℕ → List α) (k : ℕ) (hf : ∀ i, (f i).length = k)
    (d : α) : ∀ n i j, i < n → j < k →
      (((List.range n).map f).flatten).getD (k * i + j) d = (f i).getD j d := by
  intro n
  induction n with
  | zero =>
    intro i j hi _
    exact absurd hi (Nat.not_lt_zero i)
  | succ m ih =>
    intro i j hi hj
    rw [List.range_succ, List.map_append, List.flatten_append]
    rcases Nat.lt_succ_iff_lt_or_eq.mp hi with h | rfl
    · have hlt : k * i + j < (((List.range m).map f).flatten).length := by
        rw [blocks_length f k hf m]
        calc k * i + j < k * i + k := by omega
          _ = k * (i + 1) := by ring
          _ ≤ k * m := Nat.mul_le_mul_left k h
          _ = m * k := Nat.mul_comm k m
      rw [List.getD_append _ _ d _ hlt]
      exact ih i j h hj
    · have hlen : (((List.range i).map f).flatten).length = k * i := by
        rw [blocks_length f k hf i, Nat.mul_comm]
      have hge : (((List.range i).map f).flatten).length ≤ k * i + j := by
        rw [hlen]
        omega
      rw [List.getD_append_right _ _ d _ hge, hlen]
      have hsub : k * i + j - k * i = j := by omega
      rw [hsub]
      simp

/-- The path length is a sum of nonnegative distances. -/
theorem calculatePathLength_nonneg (pts : List Vec3) : 0 ≤ calculatePathLength pts := by
  induction pts with
  | nil => simp [calculatePathLength]
  | cons a rest ih =>
    cases rest with
    | nil => simp [calculatePathLength]
    | cons b t =>
      have h1 : 0 ≤ Vec3.distanceTo b a := Vec3.length_nonneg _
      have h2 : 0 ≤ calculatePathLength (b :: t) := ih
      simpa [calculatePathLength] using add_nonneg h1 h2

/-- A sequence whose points all coincide has path length zero. -/
theorem calculatePathLength_allEq (c : Vec3) :
    ∀ pts : List Vec3, (∀ p ∈ pts, p = c) → calculatePathLength pts = 0 := by
  intro pts
  induction pts with
  | nil => intro _; simp [calculatePathLength]
  | cons a rest ih =>
    intro h
    cases rest with
    | nil => simp [calculatePathLength]
    | cons b t =>
      have ha : a = c := h a (by simp)
      have hb : b = c := h b (by simp)
      have hsub : Vec3.sub b a = Vec3.zero := by
        ext <;> simp [Vec3.sub, Vec3.zero, ha, hb]
      have hrest : calculatePathLength (b :: t) = 0 := ih (fun p hp => h p (by simp [hp]))
      simp [calculatePathLength, Vec3.distanceTo, hsub, Vec3.length_zero, hrest]

/-- The segment count is always at least one. -/
theorem one_le_segmentCountOf (pts : List Vec3) (width : ℝ) :
    1 ≤ segmentCountOf pts width := le_max_left 1 _

/-- There are always at least 51 normal-field samples. -/
theorem one_lt_totalSamplePoints (pts : List Vec3) (width : ℝ) :
    1 < totalSamplePoints pts width := by
  unfold totalSamplePoints pointsPerSegment
  have := one_le_segmentCountOf pts width
  omega

/-- With the truncation toggle off, the walk ends at `pointsPerSegment`. -/
theorem maxPointsOf_false (pps : ℕ) : maxPointsOf false pps = pps := by
  unfold maxPointsOf
  simp [Int.floor_natCast]

/-- With the truncation toggle on at the source's resolution 50, the walk
ends at `Math.floor(50 * 0.99) = 49`. -/
theorem maxPointsOf_true_50 : maxPointsOf true pointsPerSegment = 49 := by
  unfold maxPointsOf pointsPerSegment
  rw [show ((50 : ℕ) : ℝ) * (if (true : Bool) then (0.99 : ℝ) else 1) = 49.5 by norm_num]
  rw [show ⌊(49.5 : ℝ)⌋ = (49 : ℤ) from by
    rw [Int.floor_eq_iff]
    norm_num]
  rfl

/-- Truncation strictly shortens the walk for any positive resolution. -/
theorem maxPointsOf_true_lt (pps : ℕ) (hp : 0 < pps) : maxPointsOf true pps < pps := by
  unfold maxPointsOf
  have h1 : ⌊(pps : ℝ) * (if (true : Bool) then (0.99 : ℝ) else 1)⌋ < (pps : ℤ) := by
    rw [Int.floor_lt]
    have hps : (0 : ℝ) < (pps : ℝ) := by exact_mod_cast hp
    norm_num
    nlinarith
  omega

/-- The walk never exceeds `pointsPerSegment` samples, truncated or not. -/
theorem maxPointsOf_le (trunc : Bool) (pps : ℕ) : maxPointsOf trunc pps ≤ pps := by
  cases trunc
  · rw [maxPointsOf_false]
  · unfold maxPointsOf
    have h1 : ⌊(pps : ℝ) * (if (true : Bool) then (0.99 : ℝ) else 1)⌋ ≤ (pps : ℤ) := by
      have hps : (0 : ℝ) ≤ (pps : ℝ) := Nat.cast_nonneg pps
      have hle : (pps : ℝ) * (if (true : Bool) then (0.99 : ℝ) else 1) ≤ (pps : ℝ) := by
        norm_num
        nlinarith
      calc ⌊(pps : ℝ) * (if (true : Bool) then (0.99 : ℝ) else 1)⌋
          ≤ ⌊(pps : ℝ)⌋ := Int.floor_le_floor hle
        _ = (pps : ℤ) := Int.floor_natCast pps
    omega

/-- Claim C2: for an input of at least two points and positive width, the
build emits exactly `max(1, ceil(L / width))` segments, `L` being the sum of
consecutive point distances of the original input sequence; the segment
count is monotone in `L` for fixed width, so doubling `L` never decreases
it. -/
theorem c2_segment_count (st : RibbonState) (pts : List Vec3) (width time : ℝ)
    (h2 : 2 ≤ pts.length) (hw : 0 < width) :
    ((buildFromPoints st pts width time).2.map List.length)
        = some (max 1 (⌈calculatePathLength pts / width⌉).toNat) ∧
    (∀ pts' : List Vec3, calculatePathLength pts ≤ calculatePathLength pts' →
      segmentCountOf pts width ≤ segmentCountOf pts' width) ∧
    (∀ pts' : List Vec3, calculatePathLength pts' = 2 * calculatePathLength pts →
      segmentCountOf pts width ≤ segmentCountOf pts' width) := by
  have hnot : ¬ pts.length < 2 := not_lt.mpr h2
  have hmono : ∀ pts' : List Vec3, calculatePathLength pts ≤ calculatePathLength pts' →
      segmentCountOf pts width ≤ segmentCountOf pts' width := by
    intro pts' hL
    unfold segmentCountOf
    have hdiv : calculatePathLength pts / width ≤ calculatePathLength pts' / width :=
      (div_le_div_iff_of_pos_right hw).mpr hL
    exact max_le_max le_rfl (Int.toNat_le_toNat (Int.ceil_le_ceil hdiv))
  refine ⟨?_, hmono, fun pts' h2L => hmono pts' ?_⟩
  · simp [buildFromPoints, hnot, buildSegmentedRibbon, segmentCountOf]
  · have hnn := calculatePathLength_nonneg pts
    linarith

/-- Claim C9: rebuilding with identical points, width and time from the
state left behind by a first build yields exactly the same geometry — the
build output depends on the prior state only through the configuration
fields, which a build never changes. -/
theorem c9_idempotent_rebuild (st : RibbonState) (pts : List Vec3) (width time : ℝ) :
    (buildFromPoints ((buildFromPoints st pts width time).1) pts width time).2
      = (buildFromPoints st pts width time).2 := by
  by_cases h : pts.length < 2
  · simp [buildFromPoints, h]
  · simp [buildFromPoints, h, buildSegmentedRibbon]

/-- Claim C10: every normal-cache lookup index `startPointIdx + i` used
while emitting segment `segIdx` is strictly below the cache length, which
equals `segmentCount * pointsPerSegment + 1`. -/
theorem c10_cache_in_bounds (pts : List Vec3) (width : ℝ) (trunc : Bool)
    (segIdx i : ℕ) (hs : segIdx < segmentCountOf pts width)
    (hi : i ≤ maxPointsOf trunc pointsPerSegment) :
    (normalFieldList pts width).length
        = segmentCountOf pts width * pointsPerSegment + 1 ∧
    segIdx * pointsPerSegment + i < (normalFieldList pts width).length := by
  have hlen : (normalFieldList pts width).length
      = segmentCountOf pts width * pointsPerSegment + 1 := by
    simp [normalFieldList, totalSamplePoints]
  refine ⟨hlen, ?_⟩
  rw [hlen]
  have hip : i ≤ pointsPerSegment := le_trans hi (maxPointsOf_le trunc pointsPerSegment)
  calc segIdx * pointsPerSegment + i
      ≤ segIdx * pointsPerSegment + pointsPerSegment := Nat.add_le_add_left hip _
    _ = (segIdx + 1) * pointsPerSegment := (Nat.succ_mul segIdx pointsPerSegment).symm
    _ ≤ segmentCountOf pts width * pointsPerSegment :=
        Nat.mul_le_mul_right pointsPerSegment (Nat.succ_le_of_lt hs)
    _ < segmentCountOf pts width * pointsPerSegment + 1 := Nat.lt_succ_self _

/-- The position buffer holds six floats per sample, `maxPoints + 1` samples. -/
theorem segment_positions_length (trunc : Bool) (wa wf ws : ℝ) (pts : List Vec3)
    (startT endT width time : ℝ) (cache : List Vec3) (startIdx pps : ℕ) :
    (createRibbonSegmentWithCache trunc wa wf ws pts startT endT width time
      cache startIdx pps).positions.length = (maxPointsOf trunc pps + 1) * 6 := by
  simp only [createRibbonSegmentWithCache]
  exact blocks_length
    (segPositionBlock wa wf ws pts startT endT width time cache startIdx pps)
    6 (fun i => rfl) _

/-- The UV buffer holds four floats per sample, `maxPoints + 1` samples. -/
theorem segment_uvs_length (trunc : Bool) (wa wf ws : ℝ) (pts : List Vec3)
    (startT endT width time : ℝ) (cache : List Vec3) (startIdx pps : ℕ) :
    (createRibbonSegmentWithCache trunc wa wf ws pts startT endT width time
      cache startIdx pps).uvs.length = (maxPointsOf trunc pps + 1) * 4 := by
  simp only [createRibbonSegmentWithCache]
  exact blocks_length (segUVBlock pps) 4 (fun i => rfl) _

/-- The index buffer holds six entries (two triangles) per sample below
`maxPoints`. -/
theorem segment_indices_length (trunc : Bool) (wa wf ws : ℝ) (pts : List Vec3)
    (startT endT width time : ℝ) (cache : List Vec3) (startIdx pps : ℕ) :
    (createRibbonSegmentWithCache trunc wa wf ws pts startT endT width time
      cache startIdx pps).indices.length = maxPointsOf trunc pps * 6 := by
  simp only [createRibbonSegmentWithCache]
  exact blocks_length segIndexBlock 6 (fun i => rfl) _

/-- The U texture coordinate stored for sample `i` is `i / pointsPerSegment`. -/
theorem segment_uv_u (trunc : Bool) (wa wf ws : ℝ) (pts : List Vec3)
    (startT endT width time : ℝ) (cache : List Vec3) (startIdx pps : ℕ)
    (i : ℕ) (hi : i < maxPointsOf trunc pps + 1) :
    (createRibbonSegmentWithCache trunc wa wf ws pts startT endT width time
      cache startIdx pps).uvs.getD (4 * i) 0 = (i : ℝ) / (pps : ℝ) := by
  simp only [createRibbonSegmentWithCache]
  have h := blocks_getD (segUVBlock pps) 4 (fun j => rfl) (0 : ℝ)
    (maxPointsOf trunc pps + 1) i 0 hi (by norm_num)
  simpa [segUVBlock] using h

/-- The six index entries emitted for sample `i` are the quad strip's two
triangles `(base, base+1, base+2)` and `(base+1, base+3, base+2)`,
`base = i*2`. -/
theorem segment_index_entries (trunc : Bool) (wa wf ws : ℝ) (pts : List Vec3)
    (startT endT width time : ℝ) (cache : List Vec3) (startIdx pps : ℕ)
    (i : ℕ) (hi : i < maxPointsOf trunc pps) :
    ((createRibbonSegmentWithCache trunc wa wf ws pts startT endT width time
        cache startIdx pps).indices.getD (6 * i) 0 = i * 2 ∧
      (createRibbonSegmentWithCache trunc wa wf ws pts startT endT width time
        cache startIdx pps).indices.getD (6 * i + 1) 0 = i * 2 + 1 ∧
      (createRibbonSegmentWithCache trunc wa wf ws pts startT endT width time
        cache startIdx pps).indices.getD (6 * i + 2) 0 = i * 2 + 2) ∧
    ((createRibbonSegmentWithCache trunc wa wf ws pts startT endT width time
        cache startIdx pps).indices.getD (6 * i + 3) 0 = i * 2 + 1 ∧
      (createRibbonSegmentWithCache trunc wa wf ws pts startT endT width time
        cache startIdx pps).indices.getD (6 * i + 4) 0 = i * 2 + 3 ∧
      (createRibbonSegmentWithCache trunc wa wf ws pts startT endT width time
        cache startIdx pps).indices.getD (6 * i + 5) 0 = i * 2 + 2) := by
  simp only [createRibbonSegmentWithCache]
  have h := fun (j : ℕ) (hj : j < 6) => blocks_getD segIndexBlock 6 (fun m => rfl) 0
    (maxPointsOf trunc pps) i j hi hj
  refine ⟨⟨?_, ?_, ?_⟩, ?_, ?_, ?_⟩
  · simpa [segIndexBlock] using h 0 (by norm_num)
  · simpa [segIndexBlock] using h 1 (by norm_num)
  · simpa [segIndexBlock] using h 2 (by norm_num)
  · simpa [segIndexBlock] using h 3 (by norm_num)
  · simpa [segIndexBlock] using h 4 (by norm_num)
  · simpa [segIndexBlock] using h 5 (by norm_num)

/-- Claim C5: every emitted segment has `2*(maxPoints+1)` vertices (three
position floats each) and `2*maxPoints` triangles (three index entries
each); the two triangles for sample `i` are `(base, base+1, base+2)` and
`(base+1, base+3, base+2)` with `base = i*2`; and the UV buffer's U
coordinate is non-decreasing along the sample walk. -/
theorem c5_geometry_validity (trunc : Bool) (wa wf ws : ℝ) (pts : List Vec3)
    (startT endT width time : ℝ) (cache : List Vec3) (startIdx pps : ℕ) :
    (createRibbonSegmentWithCache trunc wa wf ws pts startT endT width time
        cache startIdx pps).positions.length = 3 * (2 * (maxPointsOf trunc pps + 1)) ∧
    (createRibbonSegmentWithCache trunc wa wf ws pts startT endT width time
        cache startIdx pps).indices.length = 3 * (2 * maxPointsOf trunc pps) ∧
    (∀ i, i < maxPointsOf trunc pps →
      ((createRibbonSegmentWithCache trunc wa wf ws pts startT endT width time
          cache startIdx pps).indices.getD (6 * i) 0 = i * 2 ∧
        (createRibbonSegmentWithCache trunc wa wf ws pts startT endT width time
          cache startIdx pps).indices.getD (6 * i + 1) 0 = i * 2 + 1 ∧
        (createRibbonSegmentWithCache trunc wa wf ws pts startT endT width time
          cache startIdx pps).indices.getD (6 * i + 2) 0 = i * 2 + 2) ∧
      ((createRibbonSegmentWithCache trunc wa wf ws pts startT endT width time
          cache startIdx pps).indices.getD (6 * i + 3) 0 = i * 2 + 1 ∧
        (createRibbonSegmentWithCache trunc wa wf ws pts startT endT width time
          cache startIdx pps).indices.getD (6 * i + 4) 0 = i * 2 + 3 ∧
        (createRibbonSegmentWithCache trunc wa wf ws pts startT endT width time
          cache startIdx pps).indices.getD (6 * i + 5) 0 = i * 2 + 2)) ∧
    (∀ i j, i ≤ j → j ≤ maxPointsOf trunc pps →
      (createRibbonSegmentWithCache trunc wa wf ws pts startT endT width time
          cache startIdx pps).uvs.getD (4 * i) 0
        ≤ (createRibbonSegmentWithCache trunc wa wf ws pts startT endT width time
          cache startIdx pps).uvs.getD (4 * j) 0) := by
  refine ⟨?_, ?_, ?_, ?_⟩
  · rw [segment_positions_length]
    ring
  · rw [segment_indices_length]
    ring
  · intro i hi
    exact segment_index_entries trunc wa wf ws pts startT endT width time cache
      startIdx pps i hi
  · intro i j hij hj
    have hi' : i < maxPointsOf trunc pps + 1 := by omega
    have hj' : j < maxPointsOf trunc pps + 1 := by omega
    rw [segment_uv_u trunc wa wf ws pts startT endT width time cache startIdx pps i hi',
      segment_uv_u trunc wa wf ws pts startT endT width time cache startIdx pps j hj']
    rcases Nat.eq_zero_or_pos pps with hp | hp
    · subst hp
      simp
    · have hpr : (0 : ℝ) < (pps : ℝ) := by exact_mod_cast hp
      exact (div_le_div_iff_of_pos_right hpr).mpr (by exact_mod_cast hij)

/-- Claim C7: with truncation enabled the sample walk ends at
`floor(pointsPerSegment * 0.99)` instead of `pointsPerSegment`: the
truncated segment's position buffer covers exactly the samples up to
`floor(pps * 0.99)`, and it contains strictly fewer triangles than the same
segment built with truncation disabled. -/
theorem c7_truncation_toggle (wa wf ws : ℝ) (pts : List Vec3)
    (startT endT width time : ℝ) (cache : List Vec3) (startIdx pps : ℕ)
    (hp : 0 < pps) :
    maxPointsOf true pps = (⌊(pps : ℝ) * 0.99⌋).toNat ∧
    maxPointsOf false pps = pps ∧
    maxPointsOf true pps < maxPointsOf false pps ∧
    (createRibbonSegmentWithCache true wa wf ws pts startT endT width time cache
        startIdx pps).positions.length = 3 * (2 * ((⌊(pps : ℝ) * 0.99⌋).toNat + 1)) ∧
    (createRibbonSegmentWithCache true wa wf ws pts startT endT width time cache
        startIdx pps).indices.length
      < (createRibbonSegmentWithCache false wa wf ws pts startT endT width time cache
        startIdx pps).indices.length := by
  have h1 : maxPointsOf true pps = (⌊(pps : ℝ) * 0.99⌋).toNat := by
    simp [maxPointsOf]
  have h2 := maxPointsOf_false pps
  have h3 : maxPointsOf true pps < maxPointsOf false pps := by
    rw [h2]
    exact maxPointsOf_true_lt pps hp
  refine ⟨h1, h2, h3, ?_, ?_⟩
  · rw [segment_positions_length, h1]
    ring
  · rw [segment_indices_length, segment_indices_length]
    omega

/-- Interpolating with factor zero returns the first endpoint. -/
theorem Vec3.lerp_zero (a b : Vec3) : Vec3.lerp a b 0 = a := by
  ext <;> simp [Vec3.lerp]

/-- `lerpVectors` with factor zero returns the first endpoint. -/
theorem Vec3.lerpVectors_zero (a b : Vec3) : Vec3.lerpVectors a b 0 = a :=
  Vec3.lerp_zero a b

/-- `getPoint` unfolded into its closed form. -/
theorem getPoint_eq (pts : List Vec3) (s : ℝ) :
    getPoint pts s
      = Vec3.lerpVectors
          (pts.getD (⌊s * ((pts.length : ℝ) - 1)⌋).toNat Vec3.zero)
          (pts.getD ((min ⌈s * ((pts.length : ℝ) - 1)⌉ ((pts.length : ℤ) - 1)).toNat)
            Vec3.zero)
          (s * ((pts.length : ℝ) - 1) - ((⌊s * ((pts.length : ℝ) - 1)⌋ : ℤ) : ℝ)) := rfl

/-- Claim C8: for `N ≥ 2` points and `t ∈ [0, 1]`, the curve position is the
linear interpolation between `points[⌊i⌋]` and `points[min(⌈i⌉, N-1)]` by the
fractional remainder `i - ⌊i⌋` where `i = t*(N-1)`; in particular `t = 0`
yields the first point exactly and `t = 1` the last point exactly. -/
theorem c8_curve_position (pts : List Vec3) (t : ℝ) (h2 : 2 ≤ pts.length)
    (_h0 : 0 ≤ t) (_h1 : t ≤ 1) :
    getPoint pts t
      = Vec3.lerpVectors
          (pts.getD (⌊t * ((pts.length : ℝ) - 1)⌋).toNat Vec3.zero)
          (pts.getD ((min ⌈t * ((pts.length : ℝ) - 1)⌉ ((pts.length : ℤ) - 1)).toNat)
            Vec3.zero)
          (t * ((pts.length : ℝ) - 1) - ((⌊t * ((pts.length : ℝ) - 1)⌋ : ℤ) : ℝ)) ∧
    getPoint pts 0 = pts.getD 0 Vec3.zero ∧
    getPoint pts 1 = pts.getD (pts.length - 1) Vec3.zero := by
  have hNz : (0 : ℤ) ≤ (pts.length : ℤ) - 1 := by omega
  refine ⟨getPoint_eq pts t, ?_, ?_⟩
  · rw [getPoint_eq pts 0]
    rw [zero_mul, Int.floor_zero, Int.ceil_zero, Int.toNat_zero]
    rw [min_eq_left hNz, Int.toNat_zero]
    rw [show ((0 : ℤ) : ℝ) = 0 from by norm_num, sub_zero, Vec3.lerpVectors_zero]
  · have hcast : ((pts.length : ℝ) - 1) = (((pts.length : ℤ) - 1 : ℤ) : ℝ) := by
      push_cast
      ring
    rw [getPoint_eq pts 1, one_mul, hcast, Int.floor_intCast, Int.ceil_intCast,
      min_self, sub_self, Vec3.lerpVectors_zero]
    congr 1
    omega

/-- Claim C6: for every sample index `i ≥ 1` of the precomputation, the
stored normal is derived from the previous one by normalizing the double
cross product `(tangent × prevNormal) × tangent` (which is perpendicular to
the new tangent), negating it when its dot product with the previous normal
is negative, and lerping the previous normal 10% toward it, renormalized. -/
theorem c6_normal_recurrence (pts : List Vec3) (width : ℝ) (i : ℕ)
    (hi1 : 1 ≤ i) (hi2 : i < totalSamplePoints pts width) :
    (normalAt pts (totalSamplePoints pts width) i
      = Vec3.normalize (Vec3.lerp
          (normalAt pts (totalSamplePoints pts width) (i - 1))
          (if Vec3.dot
              (Vec3.normalize (Vec3.cross
                (Vec3.cross
                  (Vec3.normalize (getTangent pts
                    ((i : ℝ) / ((totalSamplePoints pts width : ℝ) - 1))))
                  (normalAt pts (totalSamplePoints pts width) (i - 1)))
                (Vec3.normalize (getTangent pts
                  ((i : ℝ) / ((totalSamplePoints pts width : ℝ) - 1))))))
              (normalAt pts (totalSamplePoints pts width) (i - 1)) < 0
           then Vec3.neg (Vec3.normalize (Vec3.cross
                (Vec3.cross
                  (Vec3.normalize (getTangent pts
                    ((i : ℝ) / ((totalSamplePoints pts width : ℝ) - 1))))
                  (normalAt pts (totalSamplePoints pts width) (i - 1)))
                (Vec3.normalize (getTangent pts
                  ((i : ℝ) / ((totalSamplePoints pts width : ℝ) - 1))))))
           else Vec3.normalize (Vec3.cross
                (Vec3.cross
                  (Vec3.normalize (getTangent pts
                    ((i : ℝ) / ((totalSamplePoints pts width : ℝ) - 1))))
                  (normalAt pts (totalSamplePoints pts width) (i - 1)))
                (Vec3.normalize (getTangent pts
                  ((i : ℝ) / ((totalSamplePoints pts width : ℝ) - 1))))))
          0.1)) ∧
    Vec3.dot
      (Vec3.normalize (Vec3.cross
        (Vec3.cross
          (Vec3.normalize (getTangent pts
            ((i : ℝ) / ((totalSamplePoints pts width : ℝ) - 1))))
          (normalAt pts (totalSamplePoints pts width) (i - 1)))
        (Vec3.normalize (getTangent pts
          ((i : ℝ) / ((totalSamplePoints pts width : ℝ) - 1))))))
      (Vec3.normalize (getTangent pts
        ((i : ℝ) / ((totalSamplePoints pts width : ℝ) - 1)))) = 0 := by
  obtain ⟨j, rfl⟩ : ∃ j, i = j + 1 := ⟨i - 1, by omega⟩
  have hstep : ∀ prev : Vec3, normalStep pts (totalSamplePoints pts width) prev (j + 1)
      = Vec3.normalize (Vec3.lerp prev
          (if Vec3.dot
              (Vec3.normalize (Vec3.cross
                (Vec3.normalize (Vec3.cross
                  (Vec3.normalize (getTangent pts
                    (((j + 1 : ℕ) : ℝ) / ((totalSamplePoints pts width : ℝ) - 1))))
                  prev))
                (Vec3.normalize (getTangent pts
                  (((j + 1 : ℕ) : ℝ) / ((totalSamplePoints pts width : ℝ) - 1))))))
              prev < 0
           then Vec3.neg (Vec3.normalize (Vec3.cross
                (Vec3.normalize (Vec3.cross
                  (Vec3.normalize (getTangent pts
                    (((j + 1 : ℕ) : ℝ) / ((totalSamplePoints pts width : ℝ) - 1))))
                  prev))
                (Vec3.normalize (getTangent pts
                  (((j + 1 : ℕ) : ℝ) / ((totalSamplePoints pts width : ℝ) - 1))))))
           else Vec3.normalize (Vec3.cross
                (Vec3.normalize (Vec3.cross
                  (Vec3.normalize (getTangent pts
                    (((j + 1 : ℕ) : ℝ) / ((totalSamplePoints pts width : ℝ) - 1))))
                  prev))
                (Vec3.normalize (getTangent pts
                  (((j + 1 : ℕ) : ℝ) / ((totalSamplePoints pts width : ℝ) - 1))))))
          0.1) := fun prev => by
    unfold normalStep
    simp only [Nat.succ_ne_zero, if_false, reduceIte]
  constructor
  · show normalAt pts (totalSamplePoints pts width) (j + 1) = _
    rw [show normalAt pts (totalSamplePoints pts width) (j + 1)
        = normalStep pts (totalSamplePoints pts width)
            (normalAt pts (totalSamplePoints pts width) j) (j + 1) from rfl]
    rw [hstep]
    rw [Vec3.normalize_cross_normalize_left]
    simp only [Nat.add_sub_cancel]
  · exact Vec3.dot_normalize_left _ _ (Vec3.dot_cross_right _ _)

/-- Evaluate `normalize` at a vector of known nonzero length. -/
theorem normalize_eval (v : Vec3) (l : ℝ) (hl : Vec3.length v = l) (hne : l ≠ 0) :
    Vec3.normalize v = ⟨v.x / l, v.y / l, v.z / l⟩ := by
  have h : Vec3.normalize v
      = ⟨v.x / (if Vec3.length v = 0 then 1 else Vec3.length v),
         v.y / (if Vec3.length v = 0 then 1 else Vec3.length v),
         v.z / (if Vec3.length v = 0 then 1 else Vec3.length v)⟩ := rfl
  rw [h, hl, if_neg hne]

/-- Evaluate `length` when the squared length is a known perfect square. -/
theorem length_eval (v : Vec3) (l : ℝ) (h0 : 0 ≤ l) (hsq : Vec3.lengthSq v = l ^ 2) :
    Vec3.length v = l := by
  rw [Vec3.length, hsq, Real.sqrt_sq h0]

/-- The cross product with the zero vector on the right is zero. -/
theorem cross_zero_right (a : Vec3) : Vec3.cross a Vec3.zero = Vec3.zero := by
  ext <;> simp [Vec3.cross, Vec3.zero]

/-- `getPoint` of a two-point sequence at `t = 0` is the first point. -/
theorem getPoint_pair_zero (p q : Vec3) : getPoint [p, q] 0 = p := by
  rw [getPoint_eq]
  rw [zero_mul, Int.floor_zero, Int.ceil_zero, Int.toNat_zero]
  have h2 : min (0 : ℤ) (([p, q].length : ℤ) - 1) = 0 := by norm_num
  rw [h2, Int.toNat_zero, show ((0 : ℤ) : ℝ) = 0 from by norm_num, sub_zero,
    Vec3.lerpVectors_zero]
  rfl

/-- `getPoint` of a two-point sequence at `t = 0.001` interpolates 0.1% of
the way from the first to the second point. -/
theorem getPoint_pair_small (p q : Vec3) :
    getPoint [p, q] 0.001 = Vec3.lerp p q 0.001 := by
  rw [getPoint_eq]
  have hlen : (([p, q].length : ℝ) - 1) = 1 := by norm_num
  rw [hlen, mul_one]
  have hf : ⌊(0.001 : ℝ)⌋ = 0 := by
    rw [Int.floor_eq_zero_iff]
    norm_num [Set.mem_Ico]
  have hc : ⌈(0.001 : ℝ)⌉ = 1 := by
    rw [Int.ceil_eq_iff]
    norm_num
  rw [hf, hc, Int.toNat_zero]
  have h2 : min (1 : ℤ) (([p, q].length : ℤ) - 1) = 1 := by norm_num
  rw [h2, Int.toNat_one, show ((0 : ℤ) : ℝ) = 0 from by norm_num, sub_zero]
  rfl

/-- The tangent of a two-point sequence at `t = 0`. -/
theorem getTangent_pair_zero (p q : Vec3) :
    getTangent [p, q] 0 = Vec3.normalize (Vec3.sub (Vec3.lerp p q 0.001) p) := by
  have h : getTangent [p, q] 0
      = Vec3.normalize (Vec3.sub (getPoint [p, q] (min (0 + 0.001) 1))
          (getPoint [p, q] (max (0 - 0.001) 0))) := rfl
  rw [h, show min ((0 : ℝ) + 0.001) 1 = 0.001 from by norm_num,
    show max ((0 : ℝ) - 0.001) 0 = 0 from by norm_num,
    getPoint_pair_small, getPoint_pair_zero]

/-- The initial tangent of the demo input is the unit x-axis vector. -/
theorem getTangent_ptsDemo : getTangent ptsDemo 0 = ⟨1, 0, 0⟩ := by
  have h1 : getTangent ptsDemo 0
      = Vec3.normalize (Vec3.sub (Vec3.lerp ⟨0, 0, 0⟩ ⟨1000, 0, 0⟩ 0.001) ⟨0, 0, 0⟩) :=
    getTangent_pair_zero ⟨0, 0, 0⟩ ⟨1000, 0, 0⟩
  rw [h1]
  have h2 : Vec3.sub (Vec3.lerp ⟨0, 0, 0⟩ ⟨1000, 0, 0⟩ 0.001) ⟨0, 0, 0⟩
      = ⟨1, 0, 0⟩ := by
    ext <;> norm_num [Vec3.sub, Vec3.lerp]
  rw [h2]
  have h3 : Vec3.length (⟨1, 0, 0⟩ : Vec3) = 1 :=
    length_eval _ 1 (by norm_num) (by norm_num [Vec3.lengthSq])
  rw [normalize_eval _ 1 h3 one_ne_zero]
  ext <;> norm_num

/-- The demo input's initial tangent is nonzero. -/
theorem getTangent_ptsDemo_ne : getTangent ptsDemo 0 ≠ Vec3.zero := by
  rw [getTangent_ptsDemo]
  intro h
  have hx := congrArg Vec3.x h
  simp [Vec3.zero] at hx

/-- The initial tangent of the near-vertical input, exactly. -/
theorem getTangent_ptsNearVertical :
    getTangent ptsNearVertical 0 = ⟨40 / 401, 399 / 401, 0⟩ := by
  have h1 : getTangent ptsNearVertical 0
      = Vec3.normalize (Vec3.sub (Vec3.lerp ⟨0, 0, 0⟩ ⟨40, 399, 0⟩ 0.001) ⟨0, 0, 0⟩) :=
    getTangent_pair_zero ⟨0, 0, 0⟩ ⟨40, 399, 0⟩
  rw [h1]
  have h2 : Vec3.sub (Vec3.lerp ⟨0, 0, 0⟩ ⟨40, 399, 0⟩ 0.001) ⟨0, 0, 0⟩
      = ⟨0.04, 0.399, 0⟩ := by
    ext <;> norm_num [Vec3.sub, Vec3.lerp]
  rw [h2]
  have h3 : Vec3.length (⟨0.04, 0.399, 0⟩ : Vec3) = 0.401 :=
    length_eval _ 0.401 (by norm_num) (by norm_num [Vec3.lengthSq])
  rw [normalize_eval _ 0.401 h3 (by norm_num)]
  ext <;> norm_num

/-- The normalized initial tangent of the near-vertical input (it is
already a unit vector, so the second normalization is the identity). -/
theorem tangent0_ptsNearVertical :
    Vec3.normalize (getTangent ptsNearVertical 0) = ⟨40 / 401, 399 / 401, 0⟩ := by
  rw [getTangent_ptsNearVertical]
  have h3 : Vec3.length (⟨40 / 401, 399 / 401, 0⟩ : Vec3) = 1 :=
    length_eval _ 1 (by norm_num) (by norm_num [Vec3.lengthSq])
  rw [normalize_eval _ 1 h3 one_ne_zero]
  ext <;> norm_num

/-- Every index of the all-zero two-point list reads the zero vector. -/
theorem getD_pair_zero : ∀ n : ℕ,
    ([Vec3.zero, Vec3.zero] : List Vec3).getD n Vec3.zero = Vec3.zero
  | 0 => rfl
  | 1 => rfl
  | _ + 2 => rfl

/-- Every curve sample of the all-zero input is the zero vector. -/
theorem getPoint_allZero (t : ℝ) : getPoint [Vec3.zero, Vec3.zero] t = Vec3.zero := by
  rw [getPoint_eq, getD_pair_zero, getD_pair_zero]
  ext <;> simp [Vec3.lerpVectors, Vec3.lerp, Vec3.zero]

/-- Every tangent of the all-zero input is the zero vector (THREE.js
normalizes the zero difference to the zero vector). -/
theorem getTangent_allZero (t : ℝ) : getTangent [Vec3.zero, Vec3.zero] t = Vec3.zero := by
  have h : getTangent [Vec3.zero, Vec3.zero] t
      = Vec3.normalize (Vec3.sub (getPoint [Vec3.zero, Vec3.zero] (min (t + 0.001) 1))
          (getPoint [Vec3.zero, Vec3.zero] (max (t - 0.001) 0))) := rfl
  rw [h, getPoint_allZero, getPoint_allZero]
  have hsub : Vec3.sub Vec3.zero Vec3.zero = Vec3.zero := by
    ext <;> simp [Vec3.sub, Vec3.zero]
  rw [hsub, Vec3.normalize_zero]

/-- For the all-coincident input even the fallback reference axis cannot
help: the reference normal degenerates to the zero vector. -/
theorem referenceNormal_allZero :
    referenceNormal [Vec3.zero, Vec3.zero] = Vec3.zero := by
  have hrefgen : referenceNormal [Vec3.zero, Vec3.zero]
      = if Vec3.length (Vec3.normalize (Vec3.cross upVec
            (Vec3.normalize (getTangent [Vec3.zero, Vec3.zero] 0)))) < 0.1
        then Vec3.normalize (Vec3.cross rightVec
          (Vec3.normalize (getTangent [Vec3.zero, Vec3.zero] 0)))
        else Vec3.normalize (Vec3.cross upVec
          (Vec3.normalize (getTangent [Vec3.zero, Vec3.zero] 0))) := rfl
  rw [hrefgen, getTangent_allZero, Vec3.normalize_zero, cross_zero_right,
    cross_zero_right, Vec3.normalize_zero, Vec3.length_zero]
  norm_num

/-- Claim C1 (amended): whenever the initial tangent of the curve is
nonzero — which holds for every non-collapsed drawing, including straight
paths and near-vertical paths — the precomputed normal field contains only
nonzero unit vectors, and adjacent samples never have a negative dot
product.  (The nonzero-tangent hypothesis is necessary: see the
counterexample with two coincident points.) -/
theorem c1_normal_field (pts : List Vec3) (width : ℝ) (_h2 : 2 ≤ pts.length)
    (_hw : 0 < width) (ht : getTangent pts 0 ≠ Vec3.zero) :
    (∀ n ∈ normalFieldList pts width, n ≠ Vec3.zero ∧ Vec3.length n = 1) ∧
    (∀ i, 0 ≤ Vec3.dot (normalAt pts (totalSamplePoints pts width) i)
        (normalAt pts (totalSamplePoints pts width) (i + 1))) := by
  have ht' : Vec3.normalize (getTangent pts 0) ≠ Vec3.zero := fun h =>
    ht ((Vec3.normalize_eq_zero_iff _).mp h)
  constructor
  · intro n hn
    rw [normalFieldList, List.mem_map] at hn
    obtain ⟨i, _, rfl⟩ := hn
    have hu := normalAt_unit pts (totalSamplePoints pts width) ht' i
    refine ⟨fun h0 => ?_, hu⟩
    rw [h0, Vec3.length_zero] at hu
    norm_num at hu
  · exact normalAt_adjacent_dot pts (totalSamplePoints pts width) ht'

/-- Claim C1 as stated is false: for the two-point all-coincident input
(2 points, width 1 > 0) the initial tangent is the zero vector, both the
primary and the fallback reference axes degenerate, and the normal field
contains the zero vector. -/
theorem c1_counterexample :
    2 ≤ ([Vec3.zero, Vec3.zero] : List Vec3).length ∧ (0 : ℝ) < 1 ∧
    ¬ (∀ n ∈ normalFieldList [Vec3.zero, Vec3.zero] 1,
        n ≠ Vec3.zero ∧ Vec3.length n = 1) := by
  refine ⟨by norm_num, by norm_num, fun hall => ?_⟩
  have hmem : Vec3.zero ∈ normalFieldList [Vec3.zero, Vec3.zero] 1 := by
    rw [normalFieldList]
    refine List.mem_map.mpr ⟨0, List.mem_range.mpr ?_, ?_⟩
    · have := one_lt_totalSamplePoints [Vec3.zero, Vec3.zero] 1
      omega
    · show normalAt [Vec3.zero, Vec3.zero]
        (totalSamplePoints [Vec3.zero, Vec3.zero] 1) 0 = Vec3.zero
      rw [show normalAt [Vec3.zero, Vec3.zero]
          (totalSamplePoints [Vec3.zero, Vec3.zero] 1) 0
          = referenceNormal [Vec3.zero, Vec3.zero] from rfl]
      exact referenceNormal_allZero
  exact (hall Vec3.zero hmem).1 rfl

/-- Claim C3 (amended): the reference normal is `normalize(up × tangent0)`
whenever that cross product is nonzero, and `normalize(right × tangent0)`
exactly when the cross product is zero; the threshold test is performed on
the already-normalized vector, whose length is 1 for every nonzero cross
product, so only an exactly-zero cross product triggers the fallback.  The
resulting frame is a unit vector whenever the initial tangent is nonzero. -/
theorem c3_reference_normal (pts : List Vec3) (ht : getTangent pts 0 ≠ Vec3.zero) :
    Vec3.length (referenceNormal pts) = 1 ∧
    (Vec3.cross upVec (Vec3.normalize (getTangent pts 0)) ≠ Vec3.zero →
      referenceNormal pts
        = Vec3.normalize (Vec3.cross upVec (Vec3.normalize (getTangent pts 0)))) ∧
    (Vec3.cross upVec (Vec3.normalize (getTangent pts 0)) = Vec3.zero →
      referenceNormal pts
        = Vec3.normalize (Vec3.cross rightVec (Vec3.normalize (getTangent pts 0)))) := by
  have ht' : Vec3.normalize (getTangent pts 0) ≠ Vec3.zero := fun h =>
    ht ((Vec3.normalize_eq_zero_iff _).mp h)
  exact referenceNormal_cases pts ht'

/-- Claim C3 as stated is false: for the near-vertical input the cross
product `up × tangent0` has length `40/401 < 0.1`, yet the code does not
fall back to `right × tangent0` — the `< 0.1` test is applied to the
normalized cross product (length 1), so the reference normal is
`(0, 0, -1)` while the claimed fallback would give `(0, 0, 1)`. -/
theorem c3_counterexample :
    Vec3.length (Vec3.cross upVec (Vec3.normalize (getTangent ptsNearVertical 0))) < 0.1 ∧
    referenceNormal ptsNearVertical
      ≠ Vec3.normalize (Vec3.cross rightVec
          (Vec3.normalize (getTangent ptsNearVertical 0))) := by
  have ht0 := tangent0_ptsNearVertical
  have hcu : Vec3.cross upVec (⟨40 / 401, 399 / 401, 0⟩ : Vec3)
      = ⟨0, 0, -(40 / 401)⟩ := by
    ext <;> norm_num [Vec3.cross, upVec]
  have hcr : Vec3.cross rightVec (⟨40 / 401, 399 / 401, 0⟩ : Vec3)
      = ⟨0, 0, 399 / 401⟩ := by
    ext <;> norm_num [Vec3.cross, rightVec]
  have hlu : Vec3.length (⟨0, 0, -(40 / 401)⟩ : Vec3) = 40 / 401 :=
    length_eval _ (40 / 401) (by norm_num) (by norm_num [Vec3.lengthSq])
  constructor
  · rw [ht0, hcu, hlu]
    norm_num
  · have hrefgen : referenceNormal ptsNearVertical
        = if Vec3.length (Vec3.normalize (Vec3.cross upVec
              (Vec3.normalize (getTangent ptsNearVertical 0)))) < 0.1
          then Vec3.normalize (Vec3.cross rightVec
            (Vec3.normalize (getTangent ptsNearVertical 0)))
          else Vec3.normalize (Vec3.cross upVec
            (Vec3.normalize (getTangent ptsNearVertical 0))) := rfl
    have hnu : Vec3.normalize (⟨0, 0, -(40 / 401)⟩ : Vec3) = ⟨0, 0, -1⟩ := by
      rw [normalize_eval _ (40 / 401) hlu (by norm_num)]
      ext <;> norm_num
    have hlnu : Vec3.length (⟨0, 0, (-1 : ℝ)⟩ : Vec3) = 1 :=
      length_eval _ 1 (by norm_num) (by norm_num [Vec3.lengthSq])
    have href : referenceNormal ptsNearVertical = ⟨0, 0, -1⟩ := by
      rw [hrefgen, ht0, hcu, hnu, hlnu]
      norm_num
    have hlr : Vec3.length (⟨0, 0, (399 / 401 : ℝ)⟩ : Vec3) = 399 / 401 :=
      length_eval _ (399 / 401) (by norm_num) (by norm_num [Vec3.lengthSq])
    have hnr : Vec3.normalize (⟨0, 0, (399 / 401 : ℝ)⟩ : Vec3) = ⟨0, 0, 1⟩ := by
      rw [normalize_eval _ (399 / 401) hlr (by norm_num)]
      ext <;> norm_num
    rw [href, ht0, hcr, hnr]
    intro h
    have hz := congrArg Vec3.z h
    norm_num at hz

/-- Claim C4 (amended): an input with fewer than 2 points short-circuits —
no segments, no state change.  An all-coincident input of at least 2 points
is *not* short-circuited: its path length is 0, so the build produces
exactly `max(1, ceil(0/width)) = 1` segment (replacing any prior ones). -/
theorem c4_degenerate_input (st : RibbonState) (pts : List Vec3) (width time : ℝ) :
    (pts.length < 2 → buildFromPoints st pts width time = (st, none)) ∧
    (∀ c : Vec3, (∀ p ∈ pts, p = c) → 2 ≤ pts.length →
      ((buildFromPoints st pts width time).2.map List.length) = some 1) := by
  constructor
  · intro h
    simp [buildFromPoints, h]
  · intro c hc h2
    have hnot : ¬ pts.length < 2 := not_lt.mpr h2
    have hL : calculatePathLength pts = 0 := calculatePathLength_allEq c pts hc
    have hcount : segmentCountOf pts width = 1 := by
      unfold segmentCountOf
      rw [hL]
      norm_num
    simp [buildFromPoints, hnot, buildSegmentedRibbon, hcount]

/-- Claim C4 as stated is false on its all-coincident branch: the build for
two coincident points returns one segment, not an empty/absent result. -/
theorem c4_counterexample :
    ((buildFromPoints initialRibbonState [Vec3.zero, Vec3.zero] 1 0).2.map List.length)
        = some 1 ∧
    (buildFromPoints initialRibbonState [Vec3.zero, Vec3.zero] 1 0).2 ≠ none := by
  have hnot : ¬ ([Vec3.zero, Vec3.zero] : List Vec3).length < 2 := by norm_num
  have hL : calculatePathLength [Vec3.zero, Vec3.zero] = 0 :=
    calculatePathLength_allEq Vec3.zero _ (by
      intro p hp
      simpa using hp)
  have hcount : segmentCountOf [Vec3.zero, Vec3.zero] 1 = 1 := by
    unfold segmentCountOf
    rw [hL]
    norm_num
  constructor
  · simp [buildFromPoints, hnot, buildSegmentedRibbon, hcount]
  · simp [buildFromPoints, hnot, buildSegmentedRibbon]

/-- Witness for C1 at the demo input (unit x-direction tangent). -/
theorem c1_normal_field_witness :
    2 ≤ ptsDemo.length ∧ (0 : ℝ) < 1 ∧ getTangent ptsDemo 0 ≠ Vec3.zero ∧
    (∀ n ∈ normalFieldList ptsDemo 1, n ≠ Vec3.zero ∧ Vec3.length n = 1) := by
  refine ⟨by norm_num [ptsDemo], by norm_num, getTangent_ptsDemo_ne, ?_⟩
  exact (c1_normal_field ptsDemo 1 (by norm_num [ptsDemo]) (by norm_num)
    getTangent_ptsDemo_ne).1

/-- Witness for C2 at the demo input with width 1, time 0. -/
theorem c2_segment_count_witness :
    2 ≤ ptsDemo.length ∧ (0 : ℝ) < 1 ∧
    ((buildFromPoints initialRibbonState ptsDemo 1 0).2.map List.length)
        = some (max 1 (⌈calculatePathLength ptsDemo / 1⌉).toNat) := by
  refine ⟨by norm_num [ptsDemo], by norm_num, ?_⟩
  exact (c2_segment_count initialRibbonState ptsDemo 1 0 (by norm_num [ptsDemo])
    (by norm_num)).1

/-- Witness for C3 at the demo input. -/
theorem c3_reference_normal_witness :
    getTangent ptsDemo 0 ≠ Vec3.zero ∧ Vec3.length (referenceNormal ptsDemo) = 1 :=
  ⟨getTangent_ptsDemo_ne, (c3_reference_normal ptsDemo getTangent_ptsDemo_ne).1⟩

/-- Witness for C4: the empty input is a no-op; two coincident points
produce exactly one segment. -/
theorem c4_degenerate_input_witness :
    buildFromPoints initialRibbonState [] 1 0 = (initialRibbonState, none) ∧
    ((buildFromPoints initialRibbonState [Vec3.zero, Vec3.zero] 1 0).2.map List.length)
        = some 1 := by
  constructor
  · exact (c4_degenerate_input initialRibbonState [] 1 0).1 (by norm_num)
  · exact (c4_degenerate_input initialRibbonState [Vec3.zero, Vec3.zero] 1 0).2
      Vec3.zero (by intro p hp; simpa using hp) (by norm_num)

/-- Witness for C5 at concrete segment parameters. -/
theorem c5_geometry_validity_witness :
    (createRibbonSegmentWithCache true 0.2 2 2 [] 0 1 1 0 [] 0 50).positions.length
      = 3 * (2 * (maxPointsOf true 50 + 1)) :=
  (c5_geometry_validity true 0.2 2 2 [] 0 1 1 0 [] 0 50).1

/-- Witness for C6 at sample index 1 of the demo input's normal field. -/
theorem c6_normal_recurrence_witness :
    1 ≤ 1 ∧ 1 < totalSamplePoints ptsDemo 1 ∧
    Vec3.dot
      (Vec3.normalize (Vec3.cross
        (Vec3.cross
          (Vec3.normalize (getTangent ptsDemo
            (((1 : ℕ) : ℝ) / ((totalSamplePoints ptsDemo 1 : ℝ) - 1))))
          (normalAt ptsDemo (totalSamplePoints ptsDemo 1) (1 - 1)))
        (Vec3.normalize (getTangent ptsDemo
          (((1 : ℕ) : ℝ) / ((totalSamplePoints ptsDemo 1 : ℝ) - 1))))))
      (Vec3.normalize (getTangent ptsDemo
        (((1 : ℕ) : ℝ) / ((totalSamplePoints ptsDemo 1 : ℝ) - 1)))) = 0 := by
  refine ⟨le_refl 1, one_lt_totalSamplePoints ptsDemo 1, ?_⟩
  exact (c6_normal_recurrence ptsDemo 1 1 (le_refl 1)
    (one_lt_totalSamplePoints ptsDemo 1)).2

/-- Witness for C7 at the source resolution of 50 samples per segment. -/
theorem c7_truncation_toggle_witness :
    0 < pointsPerSegment ∧
    maxPointsOf true pointsPerSegment < maxPointsOf false pointsPerSegment := by
  refine ⟨by norm_num [pointsPerSegment], ?_⟩
  exact (c7_truncation_toggle 0.2 2 2 [] 0 1 1 0 [] 0 pointsPerSegment
    (by norm_num [pointsPerSegment])).2.2.1

/-- Witness for C8 at the demo input and `t = 1/2`. -/
theorem c8_curve_position_witness :
    2 ≤ ptsDemo.length ∧ (0 : ℝ) ≤ 1 / 2 ∧ (1 / 2 : ℝ) ≤ 1 ∧
    getPoint ptsDemo 0 = ptsDemo.getD 0 Vec3.zero := by
  refine ⟨by norm_num [ptsDemo], by norm_num, by norm_num, ?_⟩
  exact (c8_curve_position ptsDemo (1 / 2) (by norm_num [ptsDemo]) (by norm_num)
    (by norm_num)).2.1

/-- Witness for C9 at the demo input and initial state. -/
theorem c9_idempotent_rebuild_witness :
    (buildFromPoints ((buildFromPoints initialRibbonState ptsDemo 1 0).1) ptsDemo 1 0).2
      = (buildFromPoints initialRibbonState ptsDemo 1 0).2 :=
  c9_idempotent_rebuild initialRibbonState ptsDemo 1 0

/-- Witness for C10 at segment 0, sample 0 of the demo input. -/
theorem c10_cache_in_bounds_witness :
    0 < segmentCountOf ptsDemo 1 ∧ 0 ≤ maxPointsOf true pointsPerSegment ∧
    (normalFieldList ptsDemo 1).length
      = segmentCountOf ptsDemo 1 * pointsPerSegment + 1 := by
  refine ⟨lt_of_lt_of_le Nat.zero_lt_one (one_le_segmentCountOf ptsDemo 1),
    Nat.zero_le _, ?_⟩
  exact (c10_cache_in_bounds ptsDemo 1 true 0 0
    (lt_of_lt_of_le Nat.zero_lt_one (one_le_segmentCountOf ptsDemo 1))
    (Nat.zero_le _)).1
